import Mathlib

/-!
# DevFusion IDE: the editor page and the Gemini adapter

A shallow embedding of `Client/src/Pages/Editor.jsx` and
`Client/src/services/geminiService.js`.

* JavaScript strings are Lean strings. A field that a record does not have
  (`undefined`) is `none`; a field stored as `null` is not represented. For the values
  that are only tested for truthiness (room data, the active file id, a file name
  typed by the user, the result of an adapter) `none` stands for `null` and
  `undefined` alike. The
  regular expressions and `trim` of the adapter only look at characters of the basic
  plane, so working on code points instead of UTF-16 code units changes nothing.
* A JavaScript object used as a map (the file tree) is an association list in
  own-key order; a file-tree record is a structure of optional fields.
* The React state of the component is a record; each handler is a function from
  the state of the render it belongs to, to the state after it has run. What a
  handler does to the outside world (documents written with `setDoc`, source sent
  to the runner, prompts handed to the model adapter, HTTP requests issued) is
  appended to a log kept in the same record.
* A handler that can throw returns an `Outcome`: the state it leaves and the
  exception, if any.
* The part of an `async` handler before an `await` and the part after it are run one
  after the other, with no other event in between.
-/

namespace DevFusion

/-! ## Data model -/

/-- A record of the file tree: `{ id, name, type, content }`, every field optional: a
field is `none` when the record does not have it. -/
structure FileEntry where
  id : Option String
  name : Option String
  type : Option String
  content : Option String
  deriving DecidableEq

/-- The `fileTree` object: file identifier to record, in own-key order. -/
abbrev FileTree := List (String × FileEntry)

namespace FileTree

/-- Property read `tree[k]`. -/
def get : FileTree → String → Option FileEntry
  | [], _ => none
  | (k', e) :: rest, k => if k' = k then some e else get rest k

/-- The object `{ ...tree, [k]: e }`: an existing key keeps its place and takes the
new value, a new key is added after the existing ones. (JavaScript puts a new key
that is an array index before the string keys; the identifiers made by `uuidv4` are
not array indices, and no handler reads the key order of a tree it has built.) -/
def set : FileTree → String → FileEntry → FileTree
  | [], k, e => [(k, e)]
  | (k', e') :: rest, k, e => if k' = k then (k, e) :: rest else (k', e') :: set rest k e

/-- The statement `delete tree[k]`. -/
def delete : FileTree → String → FileTree
  | [], _ => []
  | (k', e') :: rest, k => if k' = k then delete rest k else (k', e') :: delete rest k

/-- The array `Object.keys(tree)`. -/
def keys (t : FileTree) : List String := t.map Prod.fst

end FileTree

/-- The data of a room document. The file tree may be missing from it. -/
structure RoomData where
  objective : Option String
  fileTree : Option FileTree
  deriving DecidableEq

/-- The exceptions the handlers can throw. -/
inductive JsError where
  | typeError
  | referenceError
  | rejection
  deriving DecidableEq

/-- Truthiness of a value that is a string, `null` or `undefined`. -/
def truthy : Option String → Bool
  | none => false
  | some s => s != ""

/-- Truthiness of a value that is a number or `undefined`. -/
def truthyNum : Option Nat → Bool
  | none => false
  | some n => n != 0

/-- String conversion of a value that is a string or `undefined`, as done by a
template literal and by `+` with a string. -/
def toStr : Option String → String
  | none => "undefined"
  | some s => s

/-! ## geminiService.js: cleaning the response text -/

/-- The backtick character. -/
def tick : Char := Char.ofNat 96

/-- The character class `[a-z]`. -/
def isLower (c : Char) : Bool := 97 ≤ c.toNat && c.toNat ≤ 122

/-- The characters removed by `String.prototype.trim`: white space and line
terminators. -/
def isTrimmed (c : Char) : Bool :=
  let n := c.toNat
  n == 9 || n == 10 || n == 11 || n == 12 || n == 13 || n == 32 || n == 160 ||
  n == 5760 || (8192 ≤ n && n ≤ 8202) || n == 8232 || n == 8233 || n == 8239 ||
  n == 8287 || n == 12288 || n == 65279

/-- Length of the match of the regular expression ```` /```[a-z]*\n/ ```` at the start of
the input, if there is one. The class `[a-z]` does not contain the line feed, so the
greedy star has a match only when the longest run of lower-case letters is followed
by a line feed. -/
def matchOpenFence : List Char → Option Nat
  | a :: b :: c :: rest =>
    if a = tick ∧ b = tick ∧ c = tick then
      match rest.dropWhile isLower with
      | d :: _ => if d = '\n' then some (3 + (rest.takeWhile isLower).length + 1) else none
      | [] => none
    else none
  | _ => none

/-- Length of the match of the regular expression ```` /```/ ```` at the start of the
input, if there is one. -/
def matchFence : List Char → Option Nat
  | a :: b :: c :: _ => if a = tick ∧ b = tick ∧ c = tick then some 3 else none
  | _ => none

/-- The call `text.replace(re, '')` for a global regular expression whose match at a
position is given by `m`: the matches are found from left to right, the search
resuming right after each match, and every match is dropped. `skip` counts the
characters of the current match still to be dropped. -/
def replaceAll (m : List Char → Option Nat) : Nat → List Char → List Char
  | _, [] => []
  | skip + 1, _ :: cs => replaceAll m skip cs
  | 0, c :: cs =>
    match m (c :: cs) with
    | some n => replaceAll m (n - 1) cs
    | none => c :: replaceAll m 0 cs

/-- The method `trim` on the characters of a string. -/
def trimChars (cs : List Char) : List Char :=
  (cs.dropWhile isTrimmed).rdropWhile isTrimmed

/-- Lines 36-37 of `callGeminiAPI`:
```` text.replace(/```[a-z]*\n/g, '').replace(/```/g, '') ```` followed by `trim()`. -/
def cleanText (t : String) : String :=
  ⟨trimChars (replaceAll matchFence 0 (replaceAll matchOpenFence 0 t.data))⟩

/-! ## geminiService.js: the call to the model -/

/-- One element of `content.parts` of a candidate. -/
structure Part where
  text : Option String
  deriving DecidableEq

/-- The `content` of a candidate. -/
structure Content where
  parts : Option (List Part)
  deriving DecidableEq

/-- One element of `data.candidates`. -/
structure Candidate where
  content : Option Content
  deriving DecidableEq

/-- The parsed body of a response whose status is OK. -/
structure GeminiData where
  candidates : Option (List Candidate)
  deriving DecidableEq

/-- The parsed body of a response whose status is not OK: `message` is the value of
`errorData.error?.message`. -/
structure ErrorBody where
  message : Option String
  deriving DecidableEq

/-- What the HTTP call of lines 20-31 can come to. A body is `none` when
`response.json()` throws. -/
inductive FetchOutcome where
  | rejected (message : String)
  | notOk (errorData : Option ErrorBody)
  | ok (data : Option GeminiData)
  deriving DecidableEq

/-- The surroundings of the adapter: the configured key `VITE_GEMINI_API_KEY` and the
outcome of the POST request for each prompt. -/
structure Net where
  apiKey : Option String
  fetch : String → FetchOutcome

/-- What is thrown inside the `try` block of `callGeminiAPI`. -/
inductive Thrown where
  | fetchError (message : String)
  | jsonError
  | apiError (message : String)
  | noContent
  | typeError
  deriving DecidableEq

/-- The expression `data.candidates[0].content.parts[0].text` followed by the first
method call on it: a missing link throws a `TypeError`. -/
def firstText (c : Candidate) : Except Thrown String :=
  match c.content with
  | none => throw Thrown.typeError
  | some content =>
    match content.parts with
    | some (part :: _) =>
      match part.text with
      | some text => pure text
      | none => throw Thrown.typeError
    | _ => throw Thrown.typeError

/-- Lines 20-40 of `callGeminiAPI`: the body of the `try` block, given the outcome of
the request. -/
def tryBlock : FetchOutcome → Except Thrown String
  | FetchOutcome.rejected message => throw (Thrown.fetchError message)
  | FetchOutcome.notOk none => throw Thrown.jsonError
  | FetchOutcome.notOk (some errorData) =>
    throw (Thrown.apiError
      (if truthy errorData.message then toStr errorData.message
       else "Failed to get response from AI."))
  | FetchOutcome.ok none => throw Thrown.jsonError
  | FetchOutcome.ok (some data) =>
    match data.candidates with
    | some (c :: _) => do
      let text ← firstText c
      pure (cleanText text)
    | _ => throw Thrown.noContent

/-- How the promise returned by an `async` function settles. -/
inductive Settled where
  | resolved (value : Option String)
  | rejected (error : Thrown)
  deriving DecidableEq

/-- What a call of an adapter function did: the prompt it built, the body of each
request it issued, and how its promise settled. -/
structure Reply where
  prompt : String
  requests : List String
  settled : Settled
  deriving DecidableEq

/-- The function `callGeminiAPI`: the guard on the key, then the `try` block, whose
exceptions are all caught by the `catch` clause of lines 41-45, which returns `null`. -/
def callGeminiAPI (net : Net) (prompt : String) : Reply :=
  if !truthy net.apiKey then
    { prompt := prompt, requests := [], settled := Settled.resolved none }
  else
    match tryBlock (net.fetch prompt) with
    | Except.ok text =>
      { prompt := prompt, requests := [prompt], settled := Settled.resolved (some text) }
    | Except.error _ =>
      { prompt := prompt, requests := [prompt], settled := Settled.resolved none }

/-- The fixed text of the prompt of `generateCode`, up to the code block. -/
def completeInstruction : String :=
  "You are a world-class AI coding assistant. Your task is to complete the following code snippet. Only return the code that should be added, without any explanation or markdown formatting.\n\nCode to complete:\n"

/-- The fixed text of the prompt of `explainCode`, up to the code block. -/
def explainInstruction : String :=
  "You are a world-class AI coding assistant. Explain the following code snippet in a clear, concise, and easy-to-understand way. Use bullet points for key aspects.\n\nCode:\n"

/-- The fixed text of the prompt of `findBugs`, up to the code block. -/
def bugsInstruction : String :=
  "You are a world-class AI code analyst. Analyze the following code for potential bugs, security vulnerabilities, or logical errors. If you find issues, describe them clearly and suggest a fix. If no bugs are found, simply respond with \"No obvious bugs found.\"\n\nCode:\n"

/-- The function `generateCode`. -/
def generateCode (net : Net) (existingCode : Option String) : Reply :=
  callGeminiAPI net
    ("You are a world-class AI coding assistant. Your task is to complete the following code snippet. Only return the code that should be added, without any explanation or markdown formatting.\n\nCode to complete:\n```\n" ++ toStr existingCode ++ "\n```")

/-- The function `explainCode`. -/
def explainCode (net : Net) (codeToExplain : Option String) : Reply :=
  callGeminiAPI net
    ("You are a world-class AI coding assistant. Explain the following code snippet in a clear, concise, and easy-to-understand way. Use bullet points for key aspects.\n\nCode:\n```\n" ++ toStr codeToExplain ++ "\n```")

/-- The function `findBugs`. -/
def findBugs (net : Net) (codeToAnalyze : Option String) : Reply :=
  callGeminiAPI net
    ("You are a world-class AI code analyst. Analyze the following code for potential bugs, security vulnerabilities, or logical errors. If you find issues, describe them clearly and suggest a fix. If no bugs are found, simply respond with \"No obvious bugs found.\"\n\nCode:\n```\n" ++ toStr codeToAnalyze ++ "\n```")

/-! ## Editor.jsx: the state of the component -/

/-- The state of the `Editor` component (lines 19-29) together with the log of what
its handlers did to the outside world.

* `written`: the `fileTree` payload of each call
  `setDoc(roomRef, { fileTree: newFileTree }, { merge: true })`, oldest first. What
  the write does to the stored document is given by `setDocMerge`.
* `executed`: the arguments of each call of `runCode`.
* `aiCalls`: each call of an adapter function of `geminiService.js`.
* `exits`: the number of calls of `onExit`. -/
structure EditorState where
  roomData : Option RoomData
  activeFileId : Option String
  isLoading : Bool
  isTerminalVisible : Bool
  isRunningCode : Bool
  terminalOutput : Option String
  isAiLoading : Bool
  isUpdatingFromFirestore : Bool
  written : List FileTree
  executed : List (Option String × Nat)
  aiCalls : List Reply
  exits : Nat
  deriving DecidableEq

/-- The state of the first render: the initial values of lines 19-29. -/
def initial : EditorState :=
  { roomData := none, activeFileId := none, isLoading := true,
    isTerminalVisible := false, isRunningCode := false, terminalOutput := none,
    isAiLoading := false, isUpdatingFromFirestore := false,
    written := [], executed := [], aiCalls := [], exits := 0 }

/-- What a handler did: the state it leaves and the exception it threw, if any. The
state updates made before a throw are kept. -/
structure Outcome where
  state : EditorState
  thrown : Option JsError
  deriving DecidableEq

/-- The listener passed to `onSnapshot` (lines 34-48). `docSnap` is the data of the
document, `none` when `docSnap.exists()` is false.

`closureActiveFileId` is the value that the name `activeFileId` has inside the
listener. The listener is created by the effect of lines 31-50, whose dependency
list is `[roomId, onExit]`: the effect runs after the first render and again only
when one of these two changes, so the listener keeps the `activeFileId` binding of
the render in which the effect last ran, whatever `setActiveFileId` has been called
with since. -/
def onSnapshot (closureActiveFileId : Option String) (s : EditorState)
    (docSnap : Option RoomData) : EditorState :=
  match docSnap with
  | some data =>
    let s1 := { s with isUpdatingFromFirestore := true, roomData := some data }
    let s2 :=
      match data.fileTree with
      | some fileTree =>
        if !truthy closureActiveFileId && decide (fileTree.keys.length > 0) then
          match fileTree.keys.find?
              (fun id => (fileTree.get id).bind FileEntry.type == some "file") with
          | some firstFileId =>
            if truthy (some firstFileId) then { s1 with activeFileId := some firstFileId }
            else s1
          | none => s1
        else s1
      | none => s1
    { s2 with isLoading := false }
  | none => { s with exits := s.exits + 1, isLoading := false }

/-- The value of `activeFileId` inside the listener when the component is mounted
and `roomId` and `onExit` stay the same: the effect ran once, after the first render,
where `activeFileId` is the initial `null` of line 20. -/
def mountedClosure : Option String := initial.activeFileId

/-- The state setter `setActiveFileId`, which the file explorer calls through
`onSelectFile` when the user selects a file. -/
def setActiveFileId (s : EditorState) (id : Option String) : EditorState :=
  { s with activeFileId := id }

/-- The function `updateFirestoreFileTree` (lines 52-55). -/
def updateFirestoreFileTree (s : EditorState) (newFileTree : FileTree) : EditorState :=
  { s with written := s.written ++ [newFileTree] }

/-- One field of a stored record after a write with `{ merge: true }`: the written
value, or the stored one when the written record does not have the field. -/
def mergeField (stored written : Option String) : Option String :=
  match written with
  | some v => some v
  | none => stored

/-- A stored record after a record has been written over it with `{ merge: true }`. A
written record without any field is an empty map and replaces the stored record. -/
def mergeEntry (stored written : FileEntry) : FileEntry :=
  if written = { id := none, name := none, type := none, content := none } then written
  else
    { id := mergeField stored.id written.id,
      name := mergeField stored.name written.name,
      type := mergeField stored.type written.type,
      content := mergeField stored.content written.content }

/-- The `fileTree` field of the stored document after the call
`setDoc(roomRef, { fileTree: payload }, { merge: true })` of line 54, by the rule of
the option `merge` of the document store: only the values given in the data are
replaced, what the data omits remains untouched, and a field that the data sets to an
empty map is overwritten as a whole. `stored` is the field before the call. -/
def setDocMerge (stored payload : FileTree) : FileTree :=
  match payload with
  | [] => []
  | _ :: _ =>
    payload.foldl
      (fun acc p =>
        acc.set p.1
          (match acc.get p.1 with
           | some old => mergeEntry old p.2
           | none => p.2))
      stored

/-- The object `{ ...entry, content: newCode }`, where `entry` may be `undefined`. -/
def withContent (entry : Option FileEntry) (newCode : String) : FileEntry :=
  match entry with
  | some e => { e with content := some newCode }
  | none => { id := none, name := none, type := none, content := some newCode }

/-- The handler `handleCodeChange` (lines 57-66). Reading
`roomData.fileTree[activeFileId]` throws a `TypeError` when the room data has no
file tree. -/
def handleCodeChange (s : EditorState) (newCode : String) : Outcome :=
  if s.isUpdatingFromFirestore then
    { state := { s with isUpdatingFromFirestore := false }, thrown := none }
  else
    match s.roomData, s.activeFileId with
    | some roomData, some activeFileId =>
      if truthy (some activeFileId) then
        match roomData.fileTree with
        | some fileTree =>
          let updatedFileTree :=
            fileTree.set activeFileId (withContent (fileTree.get activeFileId) newCode)
          { state := updateFirestoreFileTree s updatedFileTree, thrown := none }
        | none => { state := s, thrown := some JsError.typeError }
      else { state := s, thrown := none }
    | _, _ => { state := s, thrown := none }

/-- The handler `handleCreateFile` (lines 68-77). `fileName` is what `prompt` returns
(`none` when the dialog is cancelled) and `newFileId` is what `uuidv4()` returns. -/
def handleCreateFile (s : EditorState) (fileName : Option String) (newFileId : String) :
    EditorState :=
  match fileName, s.roomData with
  | some name, some roomData =>
    if truthy (some name) then
      let newFile : FileEntry :=
        { id := some newFileId, name := some name, type := some "file",
          content := some ("// " ++ name ++ "\n") }
      let newFileTree := FileTree.set (roomData.fileTree.getD []) newFileId newFile
      setActiveFileId (updateFirestoreFileTree s newFileTree) (some newFileId)
    else s
  | _, _ => s

/-- The handler `handleDeleteItem` (lines 79-89). `confirmed` is what `window.confirm`
returns. Reading `roomData.fileTree` throws a `TypeError` when there is no room
data. -/
def handleDeleteItem (s : EditorState) (itemId : String) (confirmed : Bool) : Outcome :=
  if confirmed then
    match s.roomData with
    | some roomData =>
      let newFileTree := FileTree.delete (roomData.fileTree.getD []) itemId
      let s1 := updateFirestoreFileTree s newFileTree
      if s.activeFileId = some itemId then
        { state := setActiveFileId s1 none, thrown := none }
      else { state := s1, thrown := none }
    | none => { state := s, thrown := some JsError.typeError }
  else { state := s, thrown := none }

/-- The constant `activeFile` of line 149. A render with `isLoading` set or without
room data returns at line 145, before the constant is initialised, and a handler
that reads it then throws a `ReferenceError`. -/
def activeFile (s : EditorState) : Except JsError (Option FileEntry) :=
  if s.isLoading then throw JsError.referenceError
  else
    match s.roomData with
    | none => throw JsError.referenceError
    | some roomData =>
      match roomData.fileTree, s.activeFileId with
      | some fileTree, some activeFileId =>
        if truthy (some activeFileId) then pure (fileTree.get activeFileId) else pure none
      | _, _ => pure none

/-- The handler `handleRunCode` (lines 91-107), its two halves run one after the
other. `getJudge0LanguageId` and `runCode` are imported from other modules
(`utils/judge0LanguageMap`, `services/judge0Service`): the first is the map from a file name to a runtime identifier, the
second gives the value the runner's promise resolves to. The message of the toast of
line 96 reads `activeFile.name.split`, which throws a `TypeError` when the record has
no name. -/
def handleRunCode (getJudge0LanguageId : Option String → Option Nat)
    (runCode : Option String → Nat → String) (s : EditorState) : Outcome :=
  match activeFile s with
  | Except.error e => { state := s, thrown := some e }
  | Except.ok none => { state := s, thrown := none }
  | Except.ok (some file) =>
    match getJudge0LanguageId file.name with
    | some languageId =>
      if truthyNum (some languageId) then
        let s1 := { s with isTerminalVisible := true, isRunningCode := true,
                           terminalOutput := none }
        let result := runCode file.content languageId
        let s2 := { s1 with executed := s1.executed ++ [(file.content, languageId)] }
        { state := { s2 with terminalOutput := some result, isRunningCode := false },
          thrown := none }
      else
        { state := s, thrown := if file.name.isSome then none else some JsError.typeError }
    | none =>
      { state := s, thrown := if file.name.isSome then none else some JsError.typeError }

/-- Line 137 of `handleAiAction`, reached when nothing was thrown before it. -/
def finishAiAction (o : Outcome) : Outcome :=
  match o.thrown with
  | some e => { state := o.state, thrown := some e }
  | none => { state := { o.state with isAiLoading := false }, thrown := none }

/-- The handler `handleAiAction` (lines 109-138), the part before an `await` and the
part after it run one after the other: `activeFile` and `handleCodeChange` are those
of the render the handler belongs to, and the flag `isUpdatingFromFirestore` is read
from the ref when `handleCodeChange` runs. An adapter promise that rejects makes the
`await` throw and ends the handler. -/
def handleAiAction (net : Net) (s : EditorState) (action : String) : Outcome :=
  match activeFile s with
  | Except.error e => { state := s, thrown := some e }
  | Except.ok none => { state := s, thrown := none }
  | Except.ok (some file) =>
    if s.isAiLoading then { state := s, thrown := none }
    else
      let s1 := { s with isAiLoading := true }
      if action = "complete" then
        let reply := generateCode net file.content
        let s2 := { s1 with aiCalls := s1.aiCalls ++ [reply] }
        match reply.settled with
        | Settled.rejected _ => { state := s2, thrown := some JsError.rejection }
        | Settled.resolved result =>
          if truthy result then
            let newCode := toStr file.content ++ toStr result
            finishAiAction (handleCodeChange s2 newCode)
          else finishAiAction { state := s2, thrown := none }
      else if action = "explain" then
        let reply := explainCode net file.content
        let s2 := { s1 with aiCalls := s1.aiCalls ++ [reply] }
        match reply.settled with
        | Settled.rejected _ => { state := s2, thrown := some JsError.rejection }
        | Settled.resolved _ => finishAiAction { state := s2, thrown := none }
      else if action = "bugs" then
        let reply := findBugs net file.content
        let s2 := { s1 with aiCalls := s1.aiCalls ++ [reply] }
        match reply.settled with
        | Settled.rejected _ => { state := s2, thrown := some JsError.rejection }
        | Settled.resolved _ => finishAiAction { state := s2, thrown := none }
      else finishAiAction { state := s1, thrown := none }

/-! ## Sample rooms and states -/

/-- A file tree with a folder and two files. -/
def sampleTree : FileTree :=
  [("d", { id := some "d", name := some "src", type := some "folder", content := none }),
   ("a", { id := some "a", name := some "a.js", type := some "file", content := some "x" }),
   ("b", { id := some "b", name := some "b.py", type := some "file", content := some "y" })]

/-- A room document with `sampleTree`. -/
def sampleRoom : RoomData := { objective := some "Build a parser", fileTree := some sampleTree }

/-- A room document without a file tree. -/
def bareRoom : RoomData := { objective := some "Build a parser", fileTree := none }

/-- The state after the component is mounted and the first snapshot of `sampleRoom`
has arrived. -/
def loaded : EditorState := onSnapshot mountedClosure initial (some sampleRoom)

/-- The state `loaded` after one change event has been delivered by the editor. -/
def editing : EditorState := (handleCodeChange loaded "x").state

/-- A response whose status is OK and whose first candidate has the text `text` as its
first part. -/
def textResponse (text : String) : FetchOutcome :=
  FetchOutcome.ok (some (GeminiData.mk (some
    [Candidate.mk (some (Content.mk (some [Part.mk (some text)])))])))

/-- Surroundings with a configured key in which the model answers every prompt with
the completion `foo()` inside a code block. -/
def sampleNet : Net :=
  { apiKey := some "key", fetch := fun _ => textResponse "```js\nfoo()\n```" }

/-- A response whose status is OK and that has two candidates: the first has no parts,
the second has a text part. -/
def secondCandidateResponse : FetchOutcome :=
  FetchOutcome.ok (some (GeminiData.mk (some
    [Candidate.mk (some (Content.mk (some []))),
     Candidate.mk (some (Content.mk (some [Part.mk (some "foo()")])))])))

/-- Surroundings with a configured key in which every request gets
`secondCandidateResponse`. -/
def secondCandidateNet : Net :=
  { apiKey := some "key", fetch := fun _ => secondCandidateResponse }

/-- A state with room data that has no file tree, an active file id and the flag
clear. -/
def treeless : EditorState :=
  { initial with roomData := some bareRoom, activeFileId := some "a", isLoading := false }

end DevFusion

namespace DevFusion

/-! ## The file tree as a map -/

theorem FileTree.get_set_self (t : FileTree) (k : String) (e : FileEntry) :
    (t.set k e).get k = some e := by
  induction t with
  | nil => simp [FileTree.set, FileTree.get]
  | cons p rest ih =>
    obtain ⟨k', e'⟩ := p
    by_cases h : k' = k
    · simp [FileTree.set, FileTree.get, h]
    · simp [FileTree.set, FileTree.get, h, ih]

theorem FileTree.get_set_other (t : FileTree) (k k' : String) (e : FileEntry)
    (h : k' ≠ k) : (t.set k e).get k' = t.get k' := by
  induction t with
  | nil => simp [FileTree.set, FileTree.get, Ne.symm h]
  | cons p rest ih =>
    obtain ⟨k0, e0⟩ := p
    by_cases h0 : k0 = k
    · subst h0
      simp [FileTree.set, FileTree.get, Ne.symm h]
    · by_cases h1 : k0 = k'
      · subst h1
        simp [FileTree.set, FileTree.get, h0]
      · simp [FileTree.set, FileTree.get, h0, h1, ih]

theorem FileTree.get_eq_none_iff (t : FileTree) (k : String) :
    t.get k = none ↔ k ∉ t.keys := by
  induction t with
  | nil => simp [FileTree.get, FileTree.keys]
  | cons p rest ih =>
    obtain ⟨k0, e0⟩ := p
    by_cases h0 : k0 = k
    · simp [FileTree.get, FileTree.keys, h0]
    · have ih' : FileTree.get rest k = none ↔ k ∉ List.map Prod.fst rest := ih
      simp [FileTree.get, FileTree.keys, h0, Ne.symm h0, ih']

theorem FileTree.keys_set_of_mem (t : FileTree) (k : String) (e : FileEntry)
    (h : k ∈ t.keys) : (t.set k e).keys = t.keys := by
  induction t with
  | nil => simp [FileTree.keys] at h
  | cons p rest ih =>
    obtain ⟨k0, e0⟩ := p
    by_cases h0 : k0 = k
    · simp [FileTree.set, FileTree.keys, h0]
    · have hk : k ∈ FileTree.keys rest := by
        simp only [FileTree.keys, List.map_cons, List.mem_cons] at h
        rcases h with h | h
        · exact absurd h.symm h0
        · exact h
      have ih' : List.map Prod.fst (FileTree.set rest k e) = List.map Prod.fst rest := ih hk
      simp [FileTree.set, FileTree.keys, h0, ih']

theorem FileTree.set_of_not_mem (t : FileTree) (k : String) (e : FileEntry)
    (h : k ∉ t.keys) : t.set k e = t ++ [(k, e)] := by
  induction t with
  | nil => simp [FileTree.set]
  | cons p rest ih =>
    obtain ⟨k0, e0⟩ := p
    simp only [FileTree.keys, List.map_cons, List.mem_cons, not_or] at h
    have h0 : k0 ≠ k := fun hh => h.1 hh.symm
    have ih' := ih h.2
    simp [FileTree.set, h0, ih']

theorem FileTree.not_mem_keys_delete (t : FileTree) (k : String) :
    k ∉ (t.delete k).keys := by
  induction t with
  | nil => simp [FileTree.delete, FileTree.keys]
  | cons p rest ih =>
    obtain ⟨k0, e0⟩ := p
    by_cases h0 : k0 = k
    · simpa [FileTree.delete, h0] using ih
    · have ih' : k ∉ List.map Prod.fst (FileTree.delete rest k) := ih
      simp [FileTree.delete, FileTree.keys, h0, Ne.symm h0, ih']

theorem FileTree.get_delete_other (t : FileTree) (k k' : String) (h : k' ≠ k) :
    (t.delete k).get k' = t.get k' := by
  induction t with
  | nil => simp [FileTree.delete, FileTree.get]
  | cons p rest ih =>
    obtain ⟨k0, e0⟩ := p
    by_cases h0 : k0 = k
    · subst h0
      simp [FileTree.delete, FileTree.get, Ne.symm h, ih]
    · by_cases h1 : k0 = k'
      · subst h1
        simp [FileTree.delete, FileTree.get, h0]
      · simp [FileTree.delete, FileTree.get, h0, h1, ih]

/-! ## Local edits: `handleCodeChange` -/

theorem activeFile_eq_some (s : EditorState) (file : FileEntry)
    (h : activeFile s = Except.ok (some file)) :
    ∃ (roomData : RoomData) (fileTree : FileTree) (a : String),
      s.isLoading = false ∧ s.roomData = some roomData ∧ roomData.fileTree = some fileTree ∧
      s.activeFileId = some a ∧ truthy (some a) = true ∧ fileTree.get a = some file := by
  cases hl : s.isLoading with
  | true =>
    simp only [activeFile, hl, if_true] at h
    exact absurd h (by intro e; cases e)
  | false =>
    cases hrd : s.roomData with
    | none =>
      simp only [activeFile, hl, hrd, Bool.false_eq_true, if_false] at h
      exact absurd h (by intro e; cases e)
    | some roomData =>
      cases htree : roomData.fileTree with
      | none =>
        simp only [activeFile, hl, hrd, htree, Bool.false_eq_true, if_false] at h
        exact absurd h (by intro e; cases e)
      | some fileTree =>
        cases hact : s.activeFileId with
        | none =>
          simp only [activeFile, hl, hrd, htree, hact, Bool.false_eq_true, if_false] at h
          exact absurd h (by intro e; cases e)
        | some a =>
          cases ha : truthy (some a) with
          | false =>
            simp only [activeFile, hl, hrd, htree, hact, ha, Bool.false_eq_true, if_false] at h
            exact absurd h (by intro e; cases e)
          | true =>
            simp only [activeFile, hl, hrd, htree, hact, ha, Bool.false_eq_true, if_false,
              if_true] at h
            refine ⟨roomData, fileTree, a, rfl, rfl, htree, rfl, ha, ?_⟩
            exact Except.ok.inj h

theorem handleCodeChange_flag_set (s : EditorState) (newCode : String)
    (h : s.isUpdatingFromFirestore = true) :
    handleCodeChange s newCode
      = { state := { s with isUpdatingFromFirestore := false }, thrown := none } := by
  simp [handleCodeChange, h]

theorem handleCodeChange_write (s : EditorState) (newCode : String) (roomData : RoomData)
    (fileTree : FileTree) (a : String) (hflag : s.isUpdatingFromFirestore = false)
    (hrd : s.roomData = some roomData) (htree : roomData.fileTree = some fileTree)
    (hact : s.activeFileId = some a) (ha : truthy (some a) = true) :
    handleCodeChange s newCode
      = { state := updateFirestoreFileTree s
            (fileTree.set a (withContent (fileTree.get a) newCode)),
          thrown := none } := by
  simp [handleCodeChange, hflag, hrd, htree, hact, ha]

/-- C1: in every state in which `handleCodeChange` has a caller, that is with an
active file (the `onChange` of the editor exists only then, lines 187-193, and
`handleAiAction` returns without one, line 110), and in every state without room data
or without an active file id, the call hands a file tree to `setDoc` if and only if
the flag `isUpdatingFromFirestore` is clear and both room data and an active file id
are present. In every state in which the flag is set the call writes nothing and
clears the flag; the flag is set after every snapshot of an existing room, so a
change event that follows such a snapshot is not written back. -/
theorem handleCodeChange_writes_iff (s : EditorState) (newCode : String) :
    (((∃ file, activeFile s = Except.ok (some file)) ∨ s.roomData = none ∨
        s.activeFileId = none) →
      ((∃ t, (handleCodeChange s newCode).state.written = s.written ++ [t]) ↔
        (s.isUpdatingFromFirestore = false ∧ s.roomData.isSome = true ∧
          s.activeFileId.isSome = true))) ∧
    (s.isUpdatingFromFirestore = true →
      (handleCodeChange s newCode).state.written = s.written ∧
      (handleCodeChange s newCode).state.isUpdatingFromFirestore = false ∧
      (handleCodeChange s newCode).thrown = none) ∧
    (∀ (closureActiveFileId : Option String) (data : RoomData),
      (onSnapshot closureActiveFileId s (some data)).isUpdatingFromFirestore = true ∧
      (handleCodeChange (onSnapshot closureActiveFileId s (some data)) newCode).state.written
        = s.written) := by
  refine ⟨?_, ?_, ?_⟩
  · rintro (⟨file, hfile⟩ | hrd | hact)
    · obtain ⟨roomData, fileTree, a, _, hrd, htree, hact, ha, _⟩ :=
        activeFile_eq_some s file hfile
      cases hflag : s.isUpdatingFromFirestore with
      | true => simp [handleCodeChange_flag_set s newCode hflag]
      | false =>
        rw [handleCodeChange_write s newCode roomData fileTree a hflag hrd htree hact ha]
        simp [updateFirestoreFileTree, hrd, hact]
    · cases hflag : s.isUpdatingFromFirestore with
      | true => simp [handleCodeChange_flag_set s newCode hflag]
      | false => simp [handleCodeChange, hflag, hrd]
    · cases hflag : s.isUpdatingFromFirestore with
      | true => simp [handleCodeChange_flag_set s newCode hflag]
      | false =>
        cases hrd : s.roomData with
        | none => simp [handleCodeChange, hflag, hrd]
        | some roomData => simp [handleCodeChange, hflag, hrd, hact]
  · intro hflag
    simp [handleCodeChange_flag_set s newCode hflag]
  · intro closureActiveFileId data
    have hset : (onSnapshot closureActiveFileId s (some data)).isUpdatingFromFirestore = true := by
      simp only [onSnapshot]
      split <;> (try split) <;> (try split) <;> (try split) <;> rfl
    have hw : (onSnapshot closureActiveFileId s (some data)).written = s.written := by
      simp only [onSnapshot]
      split <;> (try split) <;> (try split) <;> (try split) <;> rfl
    refine ⟨hset, ?_⟩
    rw [handleCodeChange_flag_set _ newCode hset]
    exact hw

/-- C1, witness: in the state `editing` there is an active file and the flag is clear;
in the state `loaded`, reached by a snapshot, the flag is set. -/
theorem handleCodeChange_writes_iff_witness :
    ((∃ t, (handleCodeChange editing "z").state.written = editing.written ++ [t]) ↔
      (editing.isUpdatingFromFirestore = false ∧ editing.roomData.isSome = true ∧
        editing.activeFileId.isSome = true)) ∧
    (loaded.isUpdatingFromFirestore = true ∧
      (handleCodeChange loaded "x").state.written = loaded.written ∧
      (handleCodeChange loaded "x").state.isUpdatingFromFirestore = false ∧
      (handleCodeChange loaded "x").thrown = none) :=
  ⟨(handleCodeChange_writes_iff editing "z").1 (Or.inl ⟨_, rfl⟩),
   by decide, (handleCodeChange_writes_iff loaded "x").2.1 (by decide)⟩

/-- Outside the states of the callers: in the state `treeless`, which has room data
without a file tree, the handler throws a `TypeError` and writes nothing. -/
theorem handleCodeChange_treeless_throws :
    activeFile treeless = Except.ok none ∧
    (handleCodeChange treeless "x").state.written = treeless.written ∧
    (handleCodeChange treeless "x").thrown = some JsError.typeError :=
  ⟨rfl, by decide, by decide⟩

/-- C6: when the flag is clear, the room has a file tree and the active file id is a
non-empty key of it, `handleCodeChange` hands `setDoc` exactly one tree; in that tree
the active entry has the new text as content and its former id, name and type, every
other key has its former entry, and the keys are the former keys in the former order.
Nothing else of the state changes and nothing is thrown. -/
theorem handleCodeChange_edits_content_only (s : EditorState) (roomData : RoomData)
    (fileTree : FileTree) (a c : String)
    (hflag : s.isUpdatingFromFirestore = false) (hrd : s.roomData = some roomData)
    (htree : roomData.fileTree = some fileTree) (hact : s.activeFileId = some a)
    (ha : truthy (some a) = true) (hmem : a ∈ fileTree.keys) :
    ∃ (updated : FileTree) (old new : FileEntry),
      handleCodeChange s c
        = { state := { s with written := s.written ++ [updated] }, thrown := none } ∧
      fileTree.get a = some old ∧ updated.get a = some new ∧
      new.content = some c ∧ new.id = old.id ∧ new.name = old.name ∧ new.type = old.type ∧
      (∀ k, k ≠ a → updated.get k = fileTree.get k) ∧
      updated.keys = fileTree.keys := by
  cases hget : fileTree.get a with
  | none => exact absurd hmem ((FileTree.get_eq_none_iff fileTree a).1 hget)
  | some old =>
    refine ⟨fileTree.set a (withContent (some old) c), old, withContent (some old) c,
      ?_, rfl, ?_, rfl, rfl, rfl, rfl, ?_, ?_⟩
    · rw [handleCodeChange_write s c roomData fileTree a hflag hrd htree hact ha, hget]
      rfl
    · exact FileTree.get_set_self _ _ _
    · intro k hk
      exact FileTree.get_set_other _ _ _ _ hk
    · exact FileTree.keys_set_of_mem _ _ _ hmem

/-- C6, witness: an edit of the active file of `editing`. -/
theorem handleCodeChange_edits_content_only_witness :
    ∃ (updated : FileTree) (old new : FileEntry),
      handleCodeChange editing "z"
        = { state := { editing with written := editing.written ++ [updated] },
            thrown := none } ∧
      sampleTree.get "a" = some old ∧ updated.get "a" = some new ∧
      new.content = some "z" ∧ new.id = old.id ∧ new.name = old.name ∧ new.type = old.type ∧
      (∀ k, k ≠ "a" → updated.get k = sampleTree.get k) ∧
      updated.keys = sampleTree.keys :=
  handleCodeChange_edits_content_only editing sampleRoom sampleTree "a" "z"
    (by decide) (by decide) (by decide) (by decide) (by decide) (by decide)

/-! ## Creating and deleting: `handleCreateFile`, `handleDeleteItem` -/

/-- The payload and the local state of a delete: for a room with a file tree, a
confirmed `handleDeleteItem` hands `setDoc` exactly one tree; that tree has no entry
under the deleted id, every other key has its former entry, the active file id becomes
`null` when it was the deleted id and is otherwise what it was, and nothing else of
the state changes. A declined confirmation leaves the whole state, the log of writes
included, as it was. -/
theorem handleDeleteItem_payload (s : EditorState) (roomData : RoomData)
    (fileTree : FileTree) (itemId : String)
    (hrd : s.roomData = some roomData) (htree : roomData.fileTree = some fileTree) :
    (∃ newFileTree : FileTree,
      handleDeleteItem s itemId true
        = { state :=
              { s with
                written := s.written ++ [newFileTree],
                activeFileId := if s.activeFileId = some itemId then none else s.activeFileId },
            thrown := none } ∧
      newFileTree.get itemId = none ∧ itemId ∉ newFileTree.keys ∧
      (∀ k, k ≠ itemId → newFileTree.get k = fileTree.get k)) ∧
    ((handleDeleteItem s itemId true).state.activeFileId = none ↔
      (s.activeFileId = some itemId ∨ s.activeFileId = none)) ∧
    handleDeleteItem s itemId false = { state := s, thrown := none } := by
  have hdel : handleDeleteItem s itemId true
      = { state :=
            { s with
              written := s.written ++ [fileTree.delete itemId],
              activeFileId := if s.activeFileId = some itemId then none else s.activeFileId },
          thrown := none } := by
    by_cases h : s.activeFileId = some itemId
    · simp [handleDeleteItem, hrd, htree, h, updateFirestoreFileTree, setActiveFileId]
    · simp [handleDeleteItem, hrd, htree, h, updateFirestoreFileTree]
  refine ⟨⟨fileTree.delete itemId, hdel, ?_, ?_, ?_⟩, ?_, ?_⟩
  · exact (FileTree.get_eq_none_iff _ _).2 (FileTree.not_mem_keys_delete _ _)
  · exact FileTree.not_mem_keys_delete _ _
  · intro k hk
    exact FileTree.get_delete_other _ _ _ hk
  · rw [hdel]
    by_cases h : s.activeFileId = some itemId
    · simp [h]
    · simp [h]
  · simp [handleDeleteItem]

/-- The payload of deleting the active file of `loaded`. -/
theorem handleDeleteItem_payload_loaded :
    (∃ newFileTree : FileTree,
      handleDeleteItem loaded "a" true
        = { state :=
              { loaded with
                written := loaded.written ++ [newFileTree],
                activeFileId :=
                  if loaded.activeFileId = some "a" then none else loaded.activeFileId },
            thrown := none } ∧
      newFileTree.get "a" = none ∧ "a" ∉ newFileTree.keys ∧
      (∀ k, k ≠ "a" → newFileTree.get k = sampleTree.get k)) ∧
    ((handleDeleteItem loaded "a" true).state.activeFileId = none ↔
      (loaded.activeFileId = some "a" ∨ loaded.activeFileId = none)) ∧
    handleDeleteItem loaded "a" false = { state := loaded, thrown := none } :=
  handleDeleteItem_payload loaded sampleRoom sampleTree "a" (by decide) (by decide)

theorem setDocMerge_foldl_get (payload : FileTree) (k : String)
    (hk : ∀ p ∈ payload, p.1 ≠ k) (acc : FileTree) :
    (payload.foldl
      (fun acc p =>
        acc.set p.1
          (match acc.get p.1 with
           | some old => mergeEntry old p.2
           | none => p.2))
      acc).get k = acc.get k := by
  induction payload generalizing acc with
  | nil => rfl
  | cons p rest ih =>
    simp only [List.foldl_cons]
    rw [ih (fun q hq => hk q (List.mem_cons_of_mem _ hq))]
    exact FileTree.get_set_other _ _ _ _ (Ne.symm (hk p (List.mem_cons_self _ _)))

/-- A write with `{ merge: true }` of a tree that is not empty leaves the stored entry
of every key that the written tree does not have as it was. -/
theorem setDocMerge_keeps_omitted (stored payload : FileTree) (k : String)
    (hne : payload ≠ []) (hk : payload.get k = none) :
    (setDocMerge stored payload).get k = stored.get k := by
  have hnot : k ∉ payload.keys := (FileTree.get_eq_none_iff payload k).1 hk
  have hall : ∀ p ∈ payload, p.1 ≠ k := by
    intro p hp e
    exact hnot (by rw [← e]; exact List.mem_map_of_mem Prod.fst hp)
  cases payload with
  | nil => exact absurd rfl hne
  | cons p rest => exact setDocMerge_foldl_get (p :: rest) k hall stored

/-- After a confirmed delete in a room whose tree has the deleted id and another key,
the stored document, which held the tree of the room, still has the entry of the
deleted id. -/
theorem handleDeleteItem_stored_entry_survives (s : EditorState) (roomData : RoomData)
    (fileTree : FileTree) (itemId other : String)
    (hrd : s.roomData = some roomData) (htree : roomData.fileTree = some fileTree)
    (hother : other ≠ itemId) (hmem : other ∈ fileTree.keys) :
    ∃ payload : FileTree,
      (handleDeleteItem s itemId true).state.written = s.written ++ [payload] ∧
      payload.get itemId = none ∧
      (setDocMerge fileTree payload).get itemId = fileTree.get itemId := by
  obtain ⟨⟨payload, hdel, hnone, _, hrest⟩, _, _⟩ :=
    handleDeleteItem_payload s roomData fileTree itemId hrd htree
  refine ⟨payload, by rw [hdel], hnone, ?_⟩
  apply setDocMerge_keeps_omitted _ _ _ _ hnone
  intro hnil
  have h1 : payload.get other = fileTree.get other := hrest other hother
  rw [hnil] at h1
  exact ((FileTree.get_eq_none_iff fileTree other).1 h1.symm) hmem

/-- C4, the code at the failing input: in the state `loaded` the room has the tree
`sampleTree`, which the stored document holds; a confirmed `handleDeleteItem` of `a`
hands `setDoc` the tree without `a`, and after that write with `{ merge: true }` the
stored tree still has the entry of `a`. -/
theorem handleDeleteItem_entry_survives_merge :
    loaded.roomData = some sampleRoom ∧
    (handleDeleteItem loaded "a" true).state.written = [FileTree.delete sampleTree "a"] ∧
    FileTree.get (FileTree.delete sampleTree "a") "a" = none ∧
    FileTree.get (setDocMerge sampleTree (FileTree.delete sampleTree "a")) "a"
      = some { id := some "a", name := some "a.js", type := some "file",
               content := some "x" } := by
  decide

/-- C5: for a room with a file tree, a non-empty name `n` and an identifier `k` that
is not a key of the tree, `handleCreateFile` hands `setDoc` exactly one tree; that
tree has the record `{ id: k, name: n, type: 'file', content: "// " + n + "\n" }` under
`k`, every other key has its former entry, its keys are `k` and the former keys, one
more than before; `k` becomes the active file id and nothing else of the state
changes. When the name is empty, the dialog is cancelled or the room data is absent,
the whole state, the log of writes and the active file id included, is as it was. -/
theorem handleCreateFile_adds_one_entry (s : EditorState) (roomData : RoomData)
    (fileTree : FileTree) (n k : String)
    (hrd : s.roomData = some roomData) (htree : roomData.fileTree = some fileTree)
    (hn : n ≠ "") (hk : k ∉ fileTree.keys) :
    (∃ (newFileTree : FileTree) (newFile : FileEntry),
      newFile = { id := some k, name := some n, type := some "file",
                  content := some ("// " ++ n ++ "\n") } ∧
      handleCreateFile s (some n) k
        = { s with
            written := s.written ++ [newFileTree],
            activeFileId := some k } ∧
      newFileTree.get k = some newFile ∧
      (∀ k', k' ≠ k → newFileTree.get k' = fileTree.get k') ∧
      (∀ k', k' ∈ newFileTree.keys ↔ (k' = k ∨ k' ∈ fileTree.keys)) ∧
      newFileTree.keys.length = fileTree.keys.length + 1) ∧
    handleCreateFile s (some "") k = s ∧
    handleCreateFile s none k = s ∧
    (∀ (s0 : EditorState) (fileName : Option String), s0.roomData = none →
      handleCreateFile s0 fileName k = s0) := by
  have hset := FileTree.set_of_not_mem fileTree k
    { id := some k, name := some n, type := some "file",
      content := some ("// " ++ n ++ "\n") } hk
  refine ⟨⟨fileTree.set k (FileEntry.mk (some k) (some n) (some "file")
      (some ("// " ++ n ++ "\n"))), _, rfl, ?_, ?_, ?_, ?_, ?_⟩, ?_, ?_, ?_⟩
  · have hn' : truthy (some n) = true := by simp [truthy, hn]
    simp [handleCreateFile, hrd, htree, hn', updateFirestoreFileTree, setActiveFileId]
  · exact FileTree.get_set_self _ _ _
  · intro k' hk'
    exact FileTree.get_set_other _ _ _ _ hk'
  · intro k'
    rw [hset]
    simp only [FileTree.keys, List.map_append, List.map_cons, List.map_nil, List.mem_append,
      List.mem_singleton]
    exact Or.comm
  · rw [hset]
    simp [FileTree.keys]
  · simp [handleCreateFile, hrd, truthy]
  · simp [handleCreateFile]
  · intro s0 fileName h0
    cases fileName <;> simp [handleCreateFile, h0]

/-- C5, witness: creating `c.js` under a fresh identifier in `loaded`. -/
theorem handleCreateFile_adds_one_entry_witness :
    (∃ (newFileTree : FileTree) (newFile : FileEntry),
      newFile = { id := some "k1", name := some "c.js", type := some "file",
                  content := some ("// " ++ "c.js" ++ "\n") } ∧
      handleCreateFile loaded (some "c.js") "k1"
        = { loaded with
            written := loaded.written ++ [newFileTree],
            activeFileId := some "k1" } ∧
      newFileTree.get "k1" = some newFile ∧
      (∀ k', k' ≠ "k1" → newFileTree.get k' = sampleTree.get k') ∧
      (∀ k', k' ∈ newFileTree.keys ↔ (k' = "k1" ∨ k' ∈ sampleTree.keys)) ∧
      newFileTree.keys.length = sampleTree.keys.length + 1) ∧
    handleCreateFile loaded (some "") "k1" = loaded ∧
    handleCreateFile loaded none "k1" = loaded ∧
    (∀ (s0 : EditorState) (fileName : Option String), s0.roomData = none →
      handleCreateFile s0 fileName "k1" = s0) :=
  handleCreateFile_adds_one_entry loaded sampleRoom sampleTree "c.js" "k1"
    (by decide) (by decide) (by decide) (by decide)

/-! ## Running code: `handleRunCode` -/

theorem handleRunCode_run (getJudge0LanguageId : Option String → Option Nat)
    (runCode : Option String → Nat → String) (s : EditorState) (file : FileEntry)
    (languageId : Nat) (hfile : activeFile s = Except.ok (some file))
    (hlang : getJudge0LanguageId file.name = some languageId) (hid : languageId ≠ 0) :
    handleRunCode getJudge0LanguageId runCode s
      = { state :=
            { s with
              isTerminalVisible := true,
              isRunningCode := false,
              terminalOutput := some (runCode file.content languageId),
              executed := s.executed ++ [(file.content, languageId)] },
          thrown := none } := by
  simp [handleRunCode, hfile, hlang, truthyNum, hid]

theorem handleRunCode_skip (getJudge0LanguageId : Option String → Option Nat)
    (runCode : Option String → Nat → String) (s : EditorState)
    (h : ¬ ∃ (file : FileEntry) (languageId : Nat), activeFile s = Except.ok (some file) ∧
      getJudge0LanguageId file.name = some languageId ∧ languageId ≠ 0) :
    (handleRunCode getJudge0LanguageId runCode s).state = s := by
  cases hfile : activeFile s with
  | error e => simp [handleRunCode, hfile]
  | ok o =>
    cases o with
    | none => simp [handleRunCode, hfile]
    | some file =>
      cases hlang : getJudge0LanguageId file.name with
      | none => simp [handleRunCode, hfile, hlang]
      | some languageId =>
        by_cases hid : languageId = 0
        · simp [handleRunCode, hfile, hlang, truthyNum, hid]
        · exact absurd ⟨file, languageId, hfile, hlang, hid⟩ h

/-- C7: `handleRunCode` calls `runCode` if and only if there is an active file and
`getJudge0LanguageId` gives a truthy identifier for its name. The call then has the
content of the active file and that identifier as arguments, and afterwards the
terminal is visible, the output is the value the runner resolved to and the running
flag is false. When there is no active file or no truthy identifier the state, with
the log of runner calls, the terminal visibility, the running flag and the output,
is as it was. -/
theorem handleRunCode_forwards_iff (getJudge0LanguageId : Option String → Option Nat)
    (runCode : Option String → Nat → String) (s : EditorState) :
    ((∃ call, (handleRunCode getJudge0LanguageId runCode s).state.executed
          = s.executed ++ [call]) ↔
      ∃ (file : FileEntry) (languageId : Nat), activeFile s = Except.ok (some file) ∧
        getJudge0LanguageId file.name = some languageId ∧ languageId ≠ 0) ∧
    (∀ (file : FileEntry) (languageId : Nat), activeFile s = Except.ok (some file) →
      getJudge0LanguageId file.name = some languageId → languageId ≠ 0 →
      handleRunCode getJudge0LanguageId runCode s
        = { state :=
              { s with
                isTerminalVisible := true,
                isRunningCode := false,
                terminalOutput := some (runCode file.content languageId),
                executed := s.executed ++ [(file.content, languageId)] },
            thrown := none }) ∧
    ((¬ ∃ (file : FileEntry) (languageId : Nat), activeFile s = Except.ok (some file) ∧
        getJudge0LanguageId file.name = some languageId ∧ languageId ≠ 0) →
      (handleRunCode getJudge0LanguageId runCode s).state = s) := by
  refine ⟨⟨?_, ?_⟩, ?_, ?_⟩
  · rintro ⟨call, hcall⟩
    by_contra hno
    rw [handleRunCode_skip getJudge0LanguageId runCode s hno] at hcall
    simp at hcall
  · rintro ⟨file, languageId, hfile, hlang, hid⟩
    rw [handleRunCode_run getJudge0LanguageId runCode s file languageId hfile hlang hid]
    exact ⟨_, rfl⟩
  · intro file languageId hfile hlang hid
    exact handleRunCode_run getJudge0LanguageId runCode s file languageId hfile hlang hid
  · exact handleRunCode_skip getJudge0LanguageId runCode s

/-- C7, witness: running the active file `a.js` of `loaded` with a language map that
knows only the name `a.js`. -/
theorem handleRunCode_forwards_iff_witness :
    handleRunCode (fun name => if name = some "a.js" then some 63 else none)
        (fun _ _ => "ok") loaded
      = { state :=
            { loaded with
              isTerminalVisible := true,
              isRunningCode := false,
              terminalOutput := some "ok",
              executed := loaded.executed ++ [(some "x", 63)] },
          thrown := none } :=
  (handleRunCode_forwards_iff (fun name => if name = some "a.js" then some 63 else none)
    (fun _ _ => "ok") loaded).2.1
    { id := some "a", name := some "a.js", type := some "file", content := some "x" } 63
    rfl (by decide) (by decide)

/-! ## The prompts of the three intents -/

theorem callGeminiAPI_prompt (net : Net) (prompt : String) :
    (callGeminiAPI net prompt).prompt = prompt := by
  unfold callGeminiAPI
  split
  · rfl
  · split <;> rfl

theorem callGeminiAPI_requests (net : Net) (prompt : String)
    (hkey : truthy net.apiKey = true) : (callGeminiAPI net prompt).requests = [prompt] := by
  unfold callGeminiAPI
  rw [hkey]
  simp only [Bool.not_true, Bool.false_eq_true, if_false]
  split <;> rfl

theorem callGeminiAPI_requests_no_key (net : Net) (prompt : String)
    (hkey : truthy net.apiKey = false) : (callGeminiAPI net prompt).requests = [] := by
  simp [callGeminiAPI, hkey]

theorem callGeminiAPI_request_eq (net : Net) (prompt p : String)
    (hp : p ∈ (callGeminiAPI net prompt).requests) : p = prompt := by
  cases hkey : truthy net.apiKey with
  | false => simp [callGeminiAPI_requests_no_key net prompt hkey] at hp
  | true => simpa [callGeminiAPI_requests net prompt hkey] using hp

theorem fenced_injective (instruction c c' : String)
    (h : instruction ++ ("```\n" ++ c' ++ "\n```") = instruction ++ ("```\n" ++ c ++ "\n```")) :
    c' = c := by
  have hd := congrArg String.data h
  simp only [String.data_append, List.append_assoc] at hd
  have h1 := List.append_cancel_left (List.append_cancel_left hd)
  have h2 := List.append_cancel_right h1
  exact String.ext h2

theorem fenced_contains (instruction c : String) :
    c.data <:+: (instruction ++ ("```\n" ++ c ++ "\n```")).data := by
  refine ⟨instruction.data ++ "```\n".data, "\n```".data, ?_⟩
  simp [String.data_append, List.append_assoc]

set_option maxRecDepth 100000 in
theorem generateCode_prompt (net : Net) (c : String) :
    (generateCode net (some c)).prompt = completeInstruction ++ ("```\n" ++ c ++ "\n```") := by
  rw [generateCode, callGeminiAPI_prompt]
  simp only [toStr, completeInstruction, ← String.append_assoc]
  rfl

set_option maxRecDepth 100000 in
theorem explainCode_prompt (net : Net) (c : String) :
    (explainCode net (some c)).prompt = explainInstruction ++ ("```\n" ++ c ++ "\n```") := by
  rw [explainCode, callGeminiAPI_prompt]
  simp only [toStr, explainInstruction, ← String.append_assoc]
  rfl

set_option maxRecDepth 100000 in
theorem findBugs_prompt (net : Net) (c : String) :
    (findBugs net (some c)).prompt = bugsInstruction ++ ("```\n" ++ c ++ "\n```") := by
  rw [findBugs, callGeminiAPI_prompt]
  simp only [toStr, bugsInstruction, ← String.append_assoc]
  rfl

/-! ## The assistant: `handleAiAction` -/

theorem handleCodeChange_aiCalls (s : EditorState) (newCode : String) :
    (handleCodeChange s newCode).state.aiCalls = s.aiCalls := by
  unfold handleCodeChange
  split
  · rfl
  · split
    · split
      · split <;> rfl
      · rfl
    · rfl

theorem finishAiAction_aiCalls (o : Outcome) :
    (finishAiAction o).state.aiCalls = o.state.aiCalls := by
  unfold finishAiAction
  split <;> rfl

theorem handleAiAction_aiCalls (net : Net) (s : EditorState) (file : FileEntry)
    (action : String) (hfile : activeFile s = Except.ok (some file))
    (hload : s.isAiLoading = false) :
    (handleAiAction net s action).state.aiCalls =
      if action = "complete" then s.aiCalls ++ [generateCode net file.content]
      else if action = "explain" then s.aiCalls ++ [explainCode net file.content]
      else if action = "bugs" then s.aiCalls ++ [findBugs net file.content]
      else s.aiCalls := by
  by_cases h1 : action = "complete"
  · subst h1
    simp only [handleAiAction, hfile, hload, if_true, Bool.false_eq_true, if_false]
    split
    · rfl
    · split
      · rw [finishAiAction_aiCalls, handleCodeChange_aiCalls]
      · rw [finishAiAction_aiCalls]
  · by_cases h2 : action = "explain"
    · subst h2
      have e1 : ("explain" = "complete") = False := by decide
      simp only [handleAiAction, hfile, hload, e1, if_true, Bool.false_eq_true, if_false]
      split
      · rfl
      · rw [finishAiAction_aiCalls]
    · by_cases h3 : action = "bugs"
      · subst h3
        have e1 : ("bugs" = "complete") = False := by decide
        have e2 : ("bugs" = "explain") = False := by decide
        simp only [handleAiAction, hfile, hload, e1, e2, if_true, Bool.false_eq_true, if_false]
        split
        · rfl
        · rw [finishAiAction_aiCalls]
      · simp only [handleAiAction, hfile, hload, h1, h2, h3, if_true, Bool.false_eq_true,
          if_false]
        rw [finishAiAction_aiCalls]

theorem handleAiAction_other_action (net : Net) (s : EditorState) (action : String)
    (h1 : action ≠ "complete") (h2 : action ≠ "explain") (h3 : action ≠ "bugs") :
    (handleAiAction net s action).state.aiCalls = s.aiCalls := by
  cases hfile : activeFile s with
  | error e => simp [handleAiAction, hfile]
  | ok o =>
    cases o with
    | none => simp [handleAiAction, hfile]
    | some file =>
      cases hload : s.isAiLoading with
      | true => simp [handleAiAction, hfile, hload]
      | false =>
        rw [handleAiAction_aiCalls net s file action hfile hload]
        simp [h1, h2, h3]

theorem generateCode_requests (net : Net) (c : String) (hkey : truthy net.apiKey = true) :
    (generateCode net (some c)).requests
      = [completeInstruction ++ ("```\n" ++ c ++ "\n```")] := by
  rw [← generateCode_prompt net c]
  simp only [generateCode]
  rw [callGeminiAPI_requests _ _ hkey, callGeminiAPI_prompt]

theorem explainCode_requests (net : Net) (c : String) (hkey : truthy net.apiKey = true) :
    (explainCode net (some c)).requests
      = [explainInstruction ++ ("```\n" ++ c ++ "\n```")] := by
  rw [← explainCode_prompt net c]
  simp only [explainCode]
  rw [callGeminiAPI_requests _ _ hkey, callGeminiAPI_prompt]

theorem findBugs_requests (net : Net) (c : String) (hkey : truthy net.apiKey = true) :
    (findBugs net (some c)).requests
      = [bugsInstruction ++ ("```\n" ++ c ++ "\n```")] := by
  rw [← findBugs_prompt net c]
  simp only [findBugs]
  rw [callGeminiAPI_requests _ _ hkey, callGeminiAPI_prompt]

/-- C8: for every code string `c`, each of `generateCode`, `explainCode` and `findBugs`,
with a configured key, issues exactly one request, and the prompt it sends is the fixed
instruction text of the intent followed by a code block that holds `c`; whatever the
key, every request an intent issues carries that prompt and no other. The content `c`
is a contiguous part of the prompt, and two contents with the same prompt for the same
intent are equal. Once the guard of `handleAiAction` has passed, the action
`'complete'`, `'explain'` or `'bugs'` makes exactly one adapter call, on the content of
the active file, and in every state any other action makes no adapter call. -/
theorem ai_prompt_carries_content (net : Net) (c : String) :
    (truthy net.apiKey = true →
      (generateCode net (some c)).requests
        = [completeInstruction ++ ("```\n" ++ c ++ "\n```")] ∧
      (explainCode net (some c)).requests
        = [explainInstruction ++ ("```\n" ++ c ++ "\n```")] ∧
      (findBugs net (some c)).requests
        = [bugsInstruction ++ ("```\n" ++ c ++ "\n```")]) ∧
    (∀ p : String,
      (p ∈ (generateCode net (some c)).requests →
        p = completeInstruction ++ ("```\n" ++ c ++ "\n```")) ∧
      (p ∈ (explainCode net (some c)).requests →
        p = explainInstruction ++ ("```\n" ++ c ++ "\n```")) ∧
      (p ∈ (findBugs net (some c)).requests →
        p = bugsInstruction ++ ("```\n" ++ c ++ "\n```"))) ∧
    ((generateCode net (some c)).prompt = completeInstruction ++ ("```\n" ++ c ++ "\n```") ∧
      (explainCode net (some c)).prompt = explainInstruction ++ ("```\n" ++ c ++ "\n```") ∧
      (findBugs net (some c)).prompt = bugsInstruction ++ ("```\n" ++ c ++ "\n```")) ∧
    (c.data <:+: (generateCode net (some c)).prompt.data ∧
      c.data <:+: (explainCode net (some c)).prompt.data ∧
      c.data <:+: (findBugs net (some c)).prompt.data) ∧
    (∀ c' : String,
      ((generateCode net (some c')).prompt = (generateCode net (some c)).prompt → c' = c) ∧
      ((explainCode net (some c')).prompt = (explainCode net (some c)).prompt → c' = c) ∧
      ((findBugs net (some c')).prompt = (findBugs net (some c)).prompt → c' = c)) ∧
    (∀ (s : EditorState) (file : FileEntry) (action : String),
      activeFile s = Except.ok (some file) → file.content = some c → s.isAiLoading = false →
      (handleAiAction net s action).state.aiCalls =
        if action = "complete" then s.aiCalls ++ [generateCode net (some c)]
        else if action = "explain" then s.aiCalls ++ [explainCode net (some c)]
        else if action = "bugs" then s.aiCalls ++ [findBugs net (some c)]
        else s.aiCalls) ∧
    (∀ (s : EditorState) (action : String),
      action ≠ "complete" → action ≠ "explain" → action ≠ "bugs" →
      (handleAiAction net s action).state.aiCalls = s.aiCalls) := by
  refine ⟨?_, ?_, ⟨generateCode_prompt net c, explainCode_prompt net c, findBugs_prompt net c⟩,
    ⟨?_, ?_, ?_⟩, ?_, ?_, ?_⟩
  · intro hkey
    exact ⟨generateCode_requests net c hkey, explainCode_requests net c hkey,
      findBugs_requests net c hkey⟩
  · intro p
    refine ⟨?_, ?_, ?_⟩
    · intro hp
      rw [← generateCode_prompt net c]
      simp only [generateCode] at hp ⊢
      rw [callGeminiAPI_prompt]
      exact callGeminiAPI_request_eq _ _ _ hp
    · intro hp
      rw [← explainCode_prompt net c]
      simp only [explainCode] at hp ⊢
      rw [callGeminiAPI_prompt]
      exact callGeminiAPI_request_eq _ _ _ hp
    · intro hp
      rw [← findBugs_prompt net c]
      simp only [findBugs] at hp ⊢
      rw [callGeminiAPI_prompt]
      exact callGeminiAPI_request_eq _ _ _ hp
  · rw [generateCode_prompt]
    exact fenced_contains _ _
  · rw [explainCode_prompt]
    exact fenced_contains _ _
  · rw [findBugs_prompt]
    exact fenced_contains _ _
  · intro c'
    refine ⟨?_, ?_, ?_⟩
    · rw [generateCode_prompt, generateCode_prompt]
      exact fenced_injective _ _ _
    · rw [explainCode_prompt, explainCode_prompt]
      exact fenced_injective _ _ _
    · rw [findBugs_prompt, findBugs_prompt]
      exact fenced_injective _ _ _
  · intro s file action hfile hc hload
    rw [handleAiAction_aiCalls net s file action hfile hload, hc]
  · intro s action h1 h2 h3
    exact handleAiAction_other_action net s action h1 h2 h3

/-! ## Cleaning the response text -/

theorem matchFence_of_ne_tick (c : Char) (cs : List Char) (h : c ≠ tick) :
    matchFence (c :: cs) = none := by
  match cs with
  | [] => rfl
  | [_] => rfl
  | _ :: _ :: _ => simp [matchFence, h]

theorem matchOpenFence_of_ne_tick (c : Char) (cs : List Char) (h : c ≠ tick) :
    matchOpenFence (c :: cs) = none := by
  match cs with
  | [] => rfl
  | [_] => rfl
  | _ :: _ :: _ => simp [matchOpenFence, h]

theorem replaceAll_of_no_tick (m : List Char → Option Nat)
    (hm : ∀ c cs, c ≠ tick → m (c :: cs) = none) (cs : List Char) (h : tick ∉ cs) :
    replaceAll m 0 cs = cs := by
  induction cs with
  | nil => rfl
  | cons c cs ih =>
    simp only [List.mem_cons, not_or] at h
    have hc : c ≠ tick := fun e => h.1 e.symm
    simp [replaceAll, hm c cs hc, ih h.2]

theorem replaceAll_fence_cons (c : Char) (cs : List Char) (h : matchFence (c :: cs) = none) :
    replaceAll matchFence 0 (c :: cs) = c :: replaceAll matchFence 0 cs := by
  simp [replaceAll, h]

theorem replaceAll_fence_match (rest : List Char) :
    replaceAll matchFence 0 (tick :: tick :: tick :: rest) = replaceAll matchFence 0 rest := by
  simp [replaceAll, matchFence]

theorem two_ticks_of_leading (cs : List Char)
    (h : [tick, tick] <+: replaceAll matchFence 0 cs) : ∃ rest, cs = tick :: tick :: rest := by
  match cs with
  | [] => simp [replaceAll] at h
  | b :: cs' =>
    by_cases hb : b = tick
    · subst hb
      match cs' with
      | [] => simp [replaceAll, matchFence] at h
      | d :: cs'' =>
        by_cases hd : d = tick
        · exact ⟨cs'', by rw [hd]⟩
        · have h1 : matchFence (tick :: d :: cs'') = none := by
            match cs'' with
            | [] => rfl
            | _ :: _ => simp [matchFence, hd]
          rw [replaceAll_fence_cons _ _ h1,
            replaceAll_fence_cons _ _ (matchFence_of_ne_tick d cs'' hd)] at h
          simp only [List.cons_prefix_cons] at h
          exact absurd h.2.1.symm hd
    · rw [replaceAll_fence_cons _ _ (matchFence_of_ne_tick b cs' hb)] at h
      simp only [List.cons_prefix_cons] at h
      exact absurd h.1.symm hb

theorem no_fence_after_replaceAll (n : Nat) :
    ∀ cs : List Char, cs.length ≤ n → ¬ [tick, tick, tick] <:+: replaceAll matchFence 0 cs := by
  induction n with
  | zero =>
    intro cs hcs
    have : cs = [] := List.length_eq_zero.1 (Nat.le_zero.1 hcs)
    subst this
    simp [replaceAll]
  | succ n ih =>
    intro cs hcs
    match cs with
    | [] => simp [replaceAll]
    | a :: cs' =>
      have hlen : cs'.length ≤ n := by simpa using hcs
      by_cases hm : a = tick ∧ ∃ rest, cs' = tick :: tick :: rest
      · obtain ⟨rfl, rest, rfl⟩ := hm
        rw [replaceAll_fence_match]
        apply ih
        simp only [List.length_cons] at hlen
        omega
      · have hnone : matchFence (a :: cs') = none := by
          by_cases ha : a = tick
          · match cs' with
            | [] => rfl
            | [_] => rfl
            | b :: c :: rest =>
              have : ¬ (b = tick ∧ c = tick) := by
                rintro ⟨rfl, rfl⟩
                exact hm ⟨ha, rest, rfl⟩
              simp only [matchFence, ha, true_and]
              rw [if_neg this]
          · exact matchFence_of_ne_tick a cs' ha
        rw [replaceAll_fence_cons _ _ hnone, List.infix_cons_iff]
        rintro (hp | hi)
        · simp only [List.cons_prefix_cons] at hp
          exact hm ⟨hp.1.symm, two_ticks_of_leading cs' (by simpa using hp.2)⟩
        · exact ih cs' hlen hi

theorem trimChars_within (cs : List Char) : trimChars cs <:+: cs :=
  List.IsInfix.trans ( List.rdropWhile_prefix isTrimmed (cs.dropWhile isTrimmed)).isInfix
    (List.dropWhile_suffix isTrimmed).isInfix

theorem trimChars_head (cs : List Char) (c : Char) (h : (trimChars cs).head? = some c) :
    isTrimmed c = false := by
  have hne : trimChars cs ≠ [] := by
    intro e
    rw [e] at h
    simp at h
  have hpre : trimChars cs <+: cs.dropWhile isTrimmed := List.rdropWhile_prefix isTrimmed _
  have hhead := hpre.head hne
  have hc : (trimChars cs).head hne = c := by
    have := List.head?_eq_head hne
    rw [this] at h
    exact Option.some.inj h
  rw [← hc, hhead]
  exact List.head_dropWhile_not isTrimmed cs _

theorem trimChars_getLast (cs : List Char) (c : Char) (h : (trimChars cs).getLast? = some c) :
    isTrimmed c = false := by
  have hne : trimChars cs ≠ [] := by
    intro e
    rw [e] at h
    simp at h
  have hc : (trimChars cs).getLast hne = c := by
    have := List.getLast?_eq_getLast _ hne
    rw [this] at h
    exact Option.some.inj h
  have hnot := List.rdropWhile_last_not isTrimmed (cs.dropWhile isTrimmed) hne
  rw [← hc]
  simpa using hnot

/-- C3: for every response text `t`, the text that `callGeminiAPI` returns for it has
no three consecutive backticks, does not begin and does not end with a character that
`trim` removes, and is `t` trimmed when `t` has no backtick. -/
theorem cleanText_has_no_fence (t : String) :
    ¬ [tick, tick, tick] <:+: (cleanText t).data ∧
    (∀ c, (cleanText t).data.head? = some c → isTrimmed c = false) ∧
    (∀ c, (cleanText t).data.getLast? = some c → isTrimmed c = false) ∧
    (tick ∉ t.data → cleanText t = String.mk (trimChars t.data)) := by
  refine ⟨?_, ?_, ?_, ?_⟩
  · intro h
    exact no_fence_after_replaceAll _ _ (Nat.le_refl _) (h.trans (trimChars_within _))
  · intro c h
    exact trimChars_head _ c h
  · intro c h
    exact trimChars_getLast _ c h
  · intro h
    simp only [cleanText]
    rw [replaceAll_of_no_tick matchOpenFence matchOpenFence_of_ne_tick t.data h,
      replaceAll_of_no_tick matchFence matchFence_of_ne_tick t.data h]

/-- C3, witness: a text without a backtick is only trimmed. -/
theorem cleanText_has_no_fence_witness :
    tick ∉ "  let x = 1;\n".data ∧
    cleanText "  let x = 1;\n" = String.mk (trimChars "  let x = 1;\n".data) :=
  ⟨by decide, (cleanText_has_no_fence "  let x = 1;\n").2.2.2 (by decide)⟩

/-! ## Snapshots and the active file -/

/-- What a snapshot does to the selection in a mounted component: whatever file is
active, the first key of the snapshot's tree whose entry has type `'file'` becomes the
active file id when that key is a non-empty string. -/
theorem onSnapshot_activeFileId_of_closure (s : EditorState) (data : RoomData)
    (fileTree : FileTree) (k : String) (htree : data.fileTree = some fileTree)
    (hfind : fileTree.keys.find?
      (fun id => (fileTree.get id).bind FileEntry.type == some "file") = some k)
    (hk : k ≠ "") :
    (onSnapshot mountedClosure s (some data)).activeFileId = some k := by
  have hlen : decide (fileTree.keys.length > 0) = true := by
    cases fileTree with
    | nil => simp [FileTree.keys] at hfind
    | cons p t => simp [FileTree.keys]
  have hk' : truthy (some k) = true := by simp [truthy, hk]
  have hc : truthy mountedClosure = false := rfl
  simp only [onSnapshot, htree, hc, hlen, hfind, hk', Bool.not_false, Bool.and_self, if_true]

/-- A snapshot leaves the selection as it is when the listener sees an active file id,
and when the snapshot has no file tree or its tree has no key whose entry has type
`'file'`. -/
theorem onSnapshot_keeps_activeFileId (closureActiveFileId : Option String)
    (s : EditorState) (data : RoomData)
    (h : truthy closureActiveFileId = true ∨ data.fileTree = none ∨
      ∃ fileTree, data.fileTree = some fileTree ∧
        fileTree.keys.find?
          (fun id => (fileTree.get id).bind FileEntry.type == some "file") = none) :
    (onSnapshot closureActiveFileId s (some data)).activeFileId = s.activeFileId := by
  rcases h with h | h | ⟨fileTree, htree, hfind⟩
  · cases htree : data.fileTree with
    | none => simp [onSnapshot, htree]
    | some fileTree => simp [onSnapshot, htree, h]
  · simp [onSnapshot, h]
  · simp only [onSnapshot, htree, hfind]
    split <;> rfl

/-- C9, the code at the failing input: the component is mounted, the first snapshot of
`sampleRoom` makes `a` the active file, the user selects `b`, and the next snapshot
of the same room makes `a` the active file again. -/
theorem onSnapshot_replaces_selection :
    loaded.activeFileId = some "a" ∧
    (setActiveFileId loaded (some "b")).activeFileId = some "b" ∧
    (onSnapshot mountedClosure (setActiveFileId loaded (some "b"))
      (some sampleRoom)).activeFileId = some "a" := by
  decide

/-! ## The call to the model and the completion -/

theorem callGeminiAPI_resolves (net : Net) (prompt : String) :
    ∃ value, (callGeminiAPI net prompt).settled = Settled.resolved value := by
  unfold callGeminiAPI
  split
  · exact ⟨none, rfl⟩
  · split
    · exact ⟨_, rfl⟩
    · exact ⟨none, rfl⟩

theorem handleCodeChange_thrown_none (s : EditorState) (newCode : String)
    (roomData : RoomData) (fileTree : FileTree) (hrd : s.roomData = some roomData)
    (htree : roomData.fileTree = some fileTree) :
    (handleCodeChange s newCode).thrown = none := by
  unfold handleCodeChange
  split
  · rfl
  · split
    · rename_i rd a hrd' hact
      rw [hrd] at hrd'
      cases hrd'
      split
      · simp [htree]
      · rfl
    · rfl

theorem finishAiAction_of_thrown_none (o : Outcome) (h : o.thrown = none) :
    (finishAiAction o).thrown = none ∧ (finishAiAction o).state.isAiLoading = false := by
  simp [finishAiAction, h]

theorem handleAiAction_resets_loading (net : Net) (s : EditorState) (file : FileEntry)
    (action : String) (hfile : activeFile s = Except.ok (some file))
    (hload : s.isAiLoading = false) :
    (handleAiAction net s action).thrown = none ∧
    (handleAiAction net s action).state.isAiLoading = false := by
  obtain ⟨roomData, fileTree, a, _, hrd, htree, _, _, _⟩ := activeFile_eq_some s file hfile
  by_cases h1 : action = "complete"
  · subst h1
    obtain ⟨value, hv⟩ := callGeminiAPI_resolves net
      ("You are a world-class AI coding assistant. Your task is to complete the following code snippet. Only return the code that should be added, without any explanation or markdown formatting.\n\nCode to complete:\n```\n" ++ toStr file.content ++ "\n```")
    simp only [handleAiAction, hfile, hload, if_true, Bool.false_eq_true, if_false,
      generateCode, hv]
    split
    · exact finishAiAction_of_thrown_none _
        (handleCodeChange_thrown_none _ _ roomData fileTree hrd htree)
    · exact finishAiAction_of_thrown_none _ rfl
  · by_cases h2 : action = "explain"
    · subst h2
      have e1 : ("explain" = "complete") = False := by decide
      obtain ⟨value, hv⟩ := callGeminiAPI_resolves net
        ("You are a world-class AI coding assistant. Explain the following code snippet in a clear, concise, and easy-to-understand way. Use bullet points for key aspects.\n\nCode:\n```\n" ++ toStr file.content ++ "\n```")
      simp only [handleAiAction, hfile, hload, e1, if_true, Bool.false_eq_true, if_false,
        explainCode, hv]
      exact finishAiAction_of_thrown_none _ rfl
    · by_cases h3 : action = "bugs"
      · subst h3
        have e1 : ("bugs" = "complete") = False := by decide
        have e2 : ("bugs" = "explain") = False := by decide
        obtain ⟨value, hv⟩ := callGeminiAPI_resolves net
          ("You are a world-class AI code analyst. Analyze the following code for potential bugs, security vulnerabilities, or logical errors. If you find issues, describe them clearly and suggest a fix. If no bugs are found, simply respond with \"No obvious bugs found.\"\n\nCode:\n```\n" ++ toStr file.content ++ "\n```")
        simp only [handleAiAction, hfile, hload, e1, e2, if_true, Bool.false_eq_true,
          if_false, findBugs, hv]
        exact finishAiAction_of_thrown_none _ rfl
      · simp only [handleAiAction, hfile, hload, h1, h2, h3, if_true, Bool.false_eq_true,
          if_false]
        exact finishAiAction_of_thrown_none _ rfl

theorem tryBlock_ok_iff (o : FetchOutcome) (t : String) :
    tryBlock o = Except.ok t ↔
      ∃ (data : GeminiData) (c : Candidate) (rest : List Candidate) (content : Content)
        (part : Part) (parts : List Part) (text : String),
        o = FetchOutcome.ok (some data) ∧ data.candidates = some (c :: rest) ∧
        c.content = some content ∧ content.parts = some (part :: parts) ∧
        part.text = some text ∧ t = cleanText text := by
  constructor
  · intro h
    match o, h with
    | FetchOutcome.ok (some data), h =>
      match hc : data.candidates, h with
      | some (c :: rest), h =>
        match hct : c.content with
        | none =>
          simp only [tryBlock, hc, firstText, hct] at h
          exact absurd h (by intro e; cases e)
        | some content =>
          match hp : content.parts with
          | none =>
            simp only [tryBlock, hc, firstText, hct, hp] at h
            exact absurd h (by intro e; cases e)
          | some [] =>
            simp only [tryBlock, hc, firstText, hct, hp] at h
            exact absurd h (by intro e; cases e)
          | some (part :: parts) =>
            match htx : part.text with
            | none =>
              simp only [tryBlock, hc, firstText, hct, hp, htx] at h
              exact absurd h (by intro e; cases e)
            | some text =>
              simp only [tryBlock, hc, firstText, hct, hp, htx] at h
              exact ⟨data, c, rest, content, part, parts, text, rfl, hc, hct, hp, htx,
                (Except.ok.inj h).symm⟩
      | some [], h =>
        simp only [tryBlock, hc] at h
        exact absurd h (by intro e; cases e)
      | none, h =>
        simp only [tryBlock, hc] at h
        exact absurd h (by intro e; cases e)
  · rintro ⟨data, c, rest, content, part, parts, text, rfl, hc, hct, hp, htx, rfl⟩
    simp only [tryBlock, hc, firstText, hct, hp, htx]
    rfl

theorem callGeminiAPI_of_error (net : Net) (prompt : String) (e : Thrown)
    (h : tryBlock (net.fetch prompt) = Except.error e) :
    (callGeminiAPI net prompt).settled = Settled.resolved none := by
  unfold callGeminiAPI
  split
  · rfl
  · rw [h]

/-- C10, as the code has it: `callGeminiAPI` never rejects, whatever the HTTP call
comes to; without a configured key it resolves to `null` and issues no request; it
resolves to `null` when the request throws, when the status is not OK (whether or not
the error body can be parsed) and when the response has no candidates; it resolves to
a string exactly when the key is configured, the status is OK, the body can be parsed
and the first part of the first candidate has a text, and the string is that text
cleaned. Once `handleAiAction` has passed its guard it throws nothing and leaves
`isAiLoading` false. -/
theorem callGeminiAPI_never_rejects (net : Net) (prompt : String) :
    (∃ value, (callGeminiAPI net prompt).settled = Settled.resolved value) ∧
    (truthy net.apiKey = false →
      (callGeminiAPI net prompt).settled = Settled.resolved none ∧
      (callGeminiAPI net prompt).requests = []) ∧
    (((∃ message, net.fetch prompt = FetchOutcome.rejected message) ∨
      (∃ errorData, net.fetch prompt = FetchOutcome.notOk errorData) ∨
      net.fetch prompt = FetchOutcome.ok none ∨
      (∃ data, net.fetch prompt = FetchOutcome.ok (some data) ∧
        (data.candidates = none ∨ data.candidates = some []))) →
      (callGeminiAPI net prompt).settled = Settled.resolved none) ∧
    (∀ t : String, (callGeminiAPI net prompt).settled = Settled.resolved (some t) ↔
      (truthy net.apiKey = true ∧
        ∃ (data : GeminiData) (c : Candidate) (rest : List Candidate) (content : Content)
          (part : Part) (parts : List Part) (text : String),
          net.fetch prompt = FetchOutcome.ok (some data) ∧
          data.candidates = some (c :: rest) ∧ c.content = some content ∧
          content.parts = some (part :: parts) ∧ part.text = some text ∧
          t = cleanText text)) ∧
    (∀ (s : EditorState) (file : FileEntry) (action : String),
      activeFile s = Except.ok (some file) → s.isAiLoading = false →
      (handleAiAction net s action).thrown = none ∧
      (handleAiAction net s action).state.isAiLoading = false) := by
  refine ⟨callGeminiAPI_resolves net prompt, ?_, ?_, ?_, ?_⟩
  · intro hkey
    simp [callGeminiAPI, hkey]
  · rintro (⟨message, h⟩ | ⟨errorData, h⟩ | h | ⟨data, h, hc | hc⟩)
    · exact callGeminiAPI_of_error net prompt _ (by rw [h]; rfl)
    · cases errorData with
      | none => exact callGeminiAPI_of_error net prompt _ (by rw [h]; rfl)
      | some b => exact callGeminiAPI_of_error net prompt _ (by rw [h]; rfl)
    · exact callGeminiAPI_of_error net prompt _ (by rw [h]; rfl)
    · exact callGeminiAPI_of_error net prompt Thrown.noContent
        (by rw [h]; simp only [tryBlock, hc]; rfl)
    · exact callGeminiAPI_of_error net prompt Thrown.noContent
        (by rw [h]; simp only [tryBlock, hc]; rfl)
  · intro t
    rw [← tryBlock_ok_iff]
    cases hkey : truthy net.apiKey with
    | false => simp [callGeminiAPI, hkey]
    | true =>
      cases htry : tryBlock (net.fetch prompt) with
      | error e => simp [callGeminiAPI, hkey, htry]
      | ok text =>
        simp only [callGeminiAPI, hkey, htry, Bool.not_true, Bool.false_eq_true, if_false,
          true_and]
        constructor
        · intro h
          cases h
          rfl
        · intro h
          cases h
          rfl
  · intro s file action hfile hload
    exact handleAiAction_resets_loading net s file action hfile hload

/-- C10, witness: without a key no request is issued, and the action `'explain'` in
the state `loaded` ends with `isAiLoading` false. -/
theorem callGeminiAPI_never_rejects_witness :
    ((callGeminiAPI { apiKey := none, fetch := fun _ => textResponse "ok" } "p").settled
        = Settled.resolved none ∧
      (callGeminiAPI { apiKey := none, fetch := fun _ => textResponse "ok" } "p").requests
        = []) ∧
    ((handleAiAction sampleNet loaded "explain").thrown = none ∧
      (handleAiAction sampleNet loaded "explain").state.isAiLoading = false) :=
  ⟨(callGeminiAPI_never_rejects { apiKey := none, fetch := fun _ => textResponse "ok" }
      "p").2.1 (by decide),
   (callGeminiAPI_never_rejects sampleNet "p").2.2.2.2 loaded
      { id := some "a", name := some "a.js", type := some "file", content := some "x" }
      "explain" rfl (by decide)⟩

/-- C10, counterexample: the response is OK and its second candidate has a text part,
so it has at least one candidate with a text part, yet `callGeminiAPI` resolves to
`null`: only the first part of the first candidate is read. -/
theorem callGeminiAPI_ignores_second_candidate :
    (∃ (data : GeminiData) (candidates : List Candidate) (c : Candidate) (content : Content)
        (parts : List Part) (part : Part) (text : String),
        secondCandidateNet.fetch "p" = FetchOutcome.ok (some data) ∧
        data.candidates = some candidates ∧ c ∈ candidates ∧ c.content = some content ∧
        content.parts = some parts ∧ part ∈ parts ∧ part.text = some text) ∧
    truthy secondCandidateNet.apiKey = true ∧
    (callGeminiAPI secondCandidateNet "p").settled = Settled.resolved none := by
  refine ⟨⟨_, _, Candidate.mk (some (Content.mk (some [Part.mk (some "foo()")]))), _, _,
    Part.mk (some "foo()"), "foo()", rfl, rfl, ?_, rfl, rfl, ?_, rfl⟩, by decide, by decide⟩
  · simp
  · simp

/-! ## The completion -/

theorem finishAiAction_written (o : Outcome) :
    (finishAiAction o).state.written = o.state.written := by
  unfold finishAiAction
  split <;> rfl

/-- With the flag `isUpdatingFromFirestore` clear, the action `'complete'` hands `setDoc`
the tree in which the active file has its former content followed by the completion. -/
theorem handleAiAction_complete_flag_clear (net : Net) (s : EditorState) (file : FileEntry)
    (r : String) (hfile : activeFile s = Except.ok (some file))
    (hload : s.isAiLoading = false) (hflag : s.isUpdatingFromFirestore = false)
    (hr : (generateCode net file.content).settled = Settled.resolved (some r))
    (hne : r ≠ "") :
    ∃ (roomData : RoomData) (fileTree : FileTree) (a : String),
      s.roomData = some roomData ∧ roomData.fileTree = some fileTree ∧
      s.activeFileId = some a ∧ fileTree.get a = some file ∧
      (handleAiAction net s "complete").state.written
        = s.written ++
          [fileTree.set a { file with content := some (toStr file.content ++ r) }] := by
  obtain ⟨roomData, fileTree, a, _, hrd, htree, hact, ha, hget⟩ :=
    activeFile_eq_some s file hfile
  refine ⟨roomData, fileTree, a, hrd, htree, hact, hget, ?_⟩
  have hr' : truthy (some r) = true := by simp [truthy, hne]
  simp only [handleAiAction, hfile, hload, if_true, Bool.false_eq_true, if_false, hr, hr']
  rw [finishAiAction_written,
    handleCodeChange_write _ _ roomData fileTree a (by exact hflag) (by exact hrd) htree
      (by exact hact) ha, hget]
  rfl

/-- C2, the code at the failing input: in the state `loaded`, reached by the first
snapshot of a room, there is an active file, no request is in flight and
`generateCode` resolves to the non-empty text `foo()`; the action `'complete'` then
hands nothing to `setDoc`, throws nothing and clears the flag
`isUpdatingFromFirestore`. -/
theorem handleAiAction_complete_after_snapshot :
    activeFile loaded = Except.ok (some
      { id := some "a", name := some "a.js", type := some "file", content := some "x" }) ∧
    loaded.isAiLoading = false ∧ loaded.isUpdatingFromFirestore = true ∧
    (generateCode sampleNet (some "x")).settled = Settled.resolved (some "foo()") ∧
    (handleAiAction sampleNet loaded "complete").state.written = [] ∧
    (handleAiAction sampleNet loaded "complete").thrown = none ∧
    (handleAiAction sampleNet loaded "complete").state.isUpdatingFromFirestore = false :=
  ⟨rfl, by decide, by decide, by decide, by decide, by decide, by decide⟩

/-- C8, witness: with the key of `sampleNet`, `explainCode` on the content `x` sends one
request, the instruction followed by the code block of `x`; and the action `'explain'`
in the state `loaded`, whose active file has the content `x`, makes one call of
`explainCode` on `x`. -/
theorem ai_prompt_carries_content_witness :
    (explainCode sampleNet (some "x")).requests
      = [explainInstruction ++ ("```\n" ++ "x" ++ "\n```")] ∧
    (handleAiAction sampleNet loaded "explain").state.aiCalls =
      (if "explain" = "complete" then loaded.aiCalls ++ [generateCode sampleNet (some "x")]
      else if "explain" = "explain" then loaded.aiCalls ++ [explainCode sampleNet (some "x")]
      else if "explain" = "bugs" then loaded.aiCalls ++ [findBugs sampleNet (some "x")]
      else loaded.aiCalls) :=
  ⟨((ai_prompt_carries_content sampleNet "x").1 (by decide)).2.1,
   (ai_prompt_carries_content sampleNet "x").2.2.2.2.2.1 loaded
    { id := some "a", name := some "a.js", type := some "file", content := some "x" }
    "explain" rfl rfl (by decide)⟩

end DevFusion
